import Mathlib

set_option maxHeartbeats 1000000

/-!
Shallow embedding of the `indiekit-endpoint-cv` document-consistency layer:
the CV data storage (`src/lib/storage/cv.js`: section operations, skill
category operations, the interests schema migration), the page
configuration storage (`src/lib/storage/cvPageConfig.js`) and the CV
page-builder controller (preset catalog, preset matching, preset
application).

JavaScript values are modelled by `JsVal`; JavaScript truthiness,
`typeof`, `Array.isArray` and object property access are modelled
explicitly.  The MongoDB-backed store holding the singleton document is
modelled as an `Option` document threaded through each operation (`none` =
no stored document, as `findOne` returns `null`).  Timestamps
(`new Date().toISOString()`) are passed in as an explicit `now` parameter.
File-system export side effects (`writeCvFile`, `writeConfigFile`) have no
bearing on the stored or returned documents and are not modelled.
-/

/-- A JSON-ish JavaScript runtime value: the values that can appear in the
CV documents and in parsed request bodies. -/
inductive JsVal where
  | null
  | undefined
  | bool (b : Bool)
  | num (n : Int)
  | str (s : String)
  | arr (elems : List JsVal)
  | obj (fields : List (String × JsVal))
deriving Repr

mutual
/-- Structural (JavaScript strict) equality test on `JsVal`. -/
def jsValBeq : JsVal → JsVal → Bool
  | .null, .null => true
  | .undefined, .undefined => true
  | .bool a, .bool b => a == b
  | .num a, .num b => a == b
  | .str a, .str b => a == b
  | .arr a, .arr b => jsListBeq a b
  | .obj a, .obj b => jsFieldsBeq a b
  | _, _ => false

def jsListBeq : List JsVal → List JsVal → Bool
  | [], [] => true
  | a :: as, b :: bs => jsValBeq a b && jsListBeq as bs
  | _, _ => false

def jsFieldsBeq : List (String × JsVal) → List (String × JsVal) → Bool
  | [], [] => true
  | (k, v) :: as, (l, w) :: bs => k == l && jsValBeq v w && jsFieldsBeq as bs
  | _, _ => false
end

mutual
theorem jsValBeq_refl : ∀ a : JsVal, jsValBeq a a = true
  | .null => rfl
  | .undefined => rfl
  | .bool a => by simp [jsValBeq]
  | .num a => by simp [jsValBeq]
  | .str a => by simp [jsValBeq]
  | .arr a => by simp [jsValBeq, jsListBeq_refl a]
  | .obj a => by simp [jsValBeq, jsFieldsBeq_refl a]

theorem jsListBeq_refl : ∀ as : List JsVal, jsListBeq as as = true
  | [] => rfl
  | a :: as => by simp [jsListBeq, jsValBeq_refl a, jsListBeq_refl as]

theorem jsFieldsBeq_refl : ∀ as : List (String × JsVal), jsFieldsBeq as as = true
  | [] => rfl
  | (k, v) :: as => by simp [jsFieldsBeq, jsValBeq_refl v, jsFieldsBeq_refl as]
end

mutual
theorem eq_of_jsValBeq : ∀ a b : JsVal, jsValBeq a b = true → a = b
  | .null, b, h => by cases b <;> simp_all [jsValBeq]
  | .undefined, b, h => by cases b <;> simp_all [jsValBeq]
  | .bool x, b, h => by cases b <;> simp_all [jsValBeq]
  | .num x, b, h => by cases b <;> simp_all [jsValBeq]
  | .str x, b, h => by cases b <;> simp_all [jsValBeq]
  | .arr xs, b, h => by
      cases b <;> simp only [jsValBeq] at h
      case arr ys => exact congrArg JsVal.arr (eq_of_jsListBeq xs ys h)
      all_goals simp_all
  | .obj fs, b, h => by
      cases b <;> simp only [jsValBeq] at h
      case obj gs => exact congrArg JsVal.obj (eq_of_jsFieldsBeq fs gs h)
      all_goals simp_all

theorem eq_of_jsListBeq : ∀ as bs : List JsVal, jsListBeq as bs = true → as = bs
  | [], [], _ => rfl
  | [], _ :: _, h => by simp [jsListBeq] at h
  | _ :: _, [], h => by simp [jsListBeq] at h
  | a :: as, b :: bs, h => by
      simp only [jsListBeq, Bool.and_eq_true] at h
      rw [eq_of_jsValBeq a b h.1, eq_of_jsListBeq as bs h.2]

theorem eq_of_jsFieldsBeq :
    ∀ as bs : List (String × JsVal), jsFieldsBeq as bs = true → as = bs
  | [], [], _ => rfl
  | [], _ :: _, h => by simp [jsFieldsBeq] at h
  | _ :: _, [], h => by simp [jsFieldsBeq] at h
  | (k, v) :: as, (l, w) :: bs, h => by
      simp only [jsFieldsBeq, Bool.and_eq_true] at h
      obtain ⟨⟨hk, hv⟩, hrest⟩ := h
      rw [eq_of_jsValBeq v w hv, eq_of_jsFieldsBeq as bs hrest, eq_of_beq hk]
end

instance : DecidableEq JsVal := fun a b =>
  decidable_of_iff (jsValBeq a b = true)
    ⟨eq_of_jsValBeq a b, fun h => h ▸ jsValBeq_refl a⟩

/-- JavaScript truthiness.  `null`, `undefined`, `false`, `0` and `""` are
falsy; arrays and objects (even empty ones) are truthy. -/
def truthy : JsVal → Bool
  | .null => false
  | .undefined => false
  | .bool b => b
  | .num n => n != 0
  | .str s => s != ""
  | .arr _ => true
  | .obj _ => true

/-- JavaScript `typeof v === "object"`: true for `null`, arrays and plain
objects, false for booleans, numbers, strings and `undefined`. -/
def typeofObj : JsVal → Bool
  | .null => true
  | .arr _ => true
  | .obj _ => true
  | _ => false

/-- JavaScript `Array.isArray`. -/
def isArr : JsVal → Bool
  | .arr _ => true
  | _ => false

/-- Is the value a plain (non-array, non-null) object, i.e. in the
"current map shape" of the data model? -/
def isObjMap : JsVal → Bool
  | .obj _ => true
  | _ => false

/-- JavaScript `a || b`. -/
def jsOr (a b : JsVal) : JsVal :=
  if truthy a then a else b

/-- Property read on an object field list: value of the first binding for
the key, `undefined` when absent. -/
def objGet : List (String × JsVal) → String → JsVal
  | [], _ => .undefined
  | (k, v) :: rest, key => if k = key then v else objGet rest key

/-- Property write on an object field list: updates the first binding in
place (JS objects keep the original insertion position of an existing
key), otherwise appends the new binding. -/
def objSet : List (String × JsVal) → String → JsVal → List (String × JsVal)
  | [], key, v => [(key, v)]
  | (k, w) :: rest, key, v =>
      if k = key then (k, v) :: rest else (k, w) :: objSet rest key v

/-- JavaScript `delete o[key]` on an object field list. -/
def objDelete : List (String × JsVal) → String → List (String × JsVal)
  | [], _ => []
  | (k, w) :: rest, key =>
      if k = key then objDelete rest key else (k, w) :: objDelete rest key

/-- `Object.keys`, for objects; other values have no own enumerable keys
that matter here. -/
def objKeys : JsVal → List String
  | .obj fields => fields.map (·.1)
  | _ => []

/-- Property read `v[key]` on an arbitrary value.  On non-objects it
yields `undefined`.  (JavaScript string/array numeric indexing, e.g.
`"ab"["0"]`, is not reproduced; no property in this development is ever
read off a string or array value.) -/
def jsIndex (v : JsVal) (key : String) : JsVal :=
  match v with
  | .obj fields => objGet fields key
  | _ => .undefined

/-- `Array.prototype.join(",")` as used by the page-builder controller. -/
def joinStr : List String → String
  | [] => ""
  | [s] => s
  | s :: rest => s ++ "," ++ joinStr rest

mutual
/-- JavaScript string conversion of a value used as a property key
(`types[interest]` coerces `interest` to a string). -/
def jsKey : JsVal → String
  | .null => "null"
  | .undefined => "undefined"
  | .bool b => if b then "true" else "false"
  | .num n => toString n
  | .str s => s
  | .arr xs => joinStr (jsKeyList xs)
  | .obj _ => "[object Object]"

def jsKeyList : List JsVal → List String
  | [] => []
  | x :: xs => jsKey x :: jsKeyList xs
end

/-- JavaScript array element read `xs[i]` with an integer index:
`undefined` outside `[0, length)`. -/
def jsArrGet (xs : List JsVal) (i : Int) : JsVal :=
  if 0 ≤ i then xs.getD i.toNat .undefined else .undefined

/-- JavaScript array element write `xs[i] = v`.  A negative index creates
a non-element property and leaves the array contents unchanged; an index
at or past the length extends the array (intervening holes read back as
`undefined`). -/
def jsArrSet (xs : List JsVal) (i : Int) (v : JsVal) : List JsVal :=
  if i < 0 then xs
  else if i.toNat < xs.length then xs.set i.toNat v
  else xs ++ List.replicate (i.toNat - xs.length) .undefined ++ [v]

/-- Example sanity checks for the JS value model. -/
example : truthy (.arr []) = true := by decide
example : truthy (.obj []) = true := by decide
example : typeofObj .null = true := by decide
example : jsArrSet [.str "a"] (-1) .undefined = [.str "a"] := by decide
example : jsArrSet [.str "a", .str "b"] 2 (.str "c") =
    [.str "a", .str "b", .str "c"] := by decide

/-! ## The CV profile document (`src/lib/storage/cv.js`) -/

/-- The `cvData` singleton document (the fixed `_id: "cv"` field is
omitted: it is the constant key and is stripped from every projection). -/
structure CvDoc where
  experience : JsVal
  projects : JsVal
  skills : JsVal
  skillTypes : JsVal
  education : JsVal
  languages : JsVal
  interests : JsVal
  interestTypes : JsVal
  lastUpdated : JsVal
deriving Repr, DecidableEq

/-- `getDefaultCvData`: the default empty CV structure. -/
def getDefaultCvData : CvDoc :=
  { experience := .arr []
    projects := .arr []
    skills := .obj []
    skillTypes := .obj []
    education := .arr []
    languages := .arr []
    interests := .obj []
    interestTypes := .obj []
    lastUpdated := .null }

/-- `(await getCvData(application)) || getDefaultCvData()`: the stored
document (always a truthy object) or the default. -/
def loadOrDefault : Option CvDoc → CvDoc
  | some d => d
  | none => getDefaultCvData

/-- The `groups[category]` update in `migrateInterests`:
`if (!groups[category]) groups[category] = []; groups[category].push(x)`.
The group values are always (truthy, non-empty) arrays, so the falsiness
test is exactly key absence. -/
def pushGroup : List (String × List JsVal) → String → JsVal → List (String × List JsVal)
  | [], category, x => [(category, [x])]
  | (c, xs) :: rest, category, x =>
      if c = category then (c, xs ++ [x]) :: rest
      else (c, xs) :: pushGroup rest category x

/-- The grouping loop of `migrateInterests`: for each legacy item, look up
its classifier (`types[interest] || "personal"`), map it to the category
`"Work"` or `"Personal"` and append the item to that group. -/
def buildGroups (types : JsVal) (items : List JsVal) : List (String × List JsVal) :=
  items.foldl
    (fun groups interest =>
      let ty := jsOr (jsIndex types (jsKey interest)) (.str "personal")
      let category := if ty = .str "work" then "Work" else "Personal"
      pushGroup groups category interest)
    []

/-- The loop of `migrateInterestTypes`: `categoryTypes[category] = type`
for each legacy item (last write per category wins, key keeps its first
insertion position). -/
def buildCategoryTypes (types : JsVal) (items : List JsVal) : List (String × JsVal) :=
  items.foldl
    (fun categoryTypes interest =>
      let ty := jsOr (jsIndex types (jsKey interest)) (.str "personal")
      let category := if ty = .str "work" then "Work" else "Personal"
      objSet categoryTypes category ty)
    []

/-- `migrateInterests(interests, interestTypes)`: migrate a legacy flat
interests array to the category-keyed object; pass objects through. -/
def migrateInterests (interests interestTypes : JsVal) : JsVal :=
  if truthy interests then
    match interests with
    | .arr items =>
        if items.length = 0 then .obj []
        else
          .obj ((buildGroups (jsOr interestTypes (.obj [])) items).map
            fun g => (g.1, JsVal.arr g.2))
    | _ => if typeofObj interests then interests else .obj []
  else .obj []

/-- `migrateInterestTypes(interests, interestTypes)`: derive the
category-keyed classifier map for a legacy interests array; when
`interests` is already an object, pass `interestTypes` through whenever
`typeof interestTypes === "object"`, else reset to an empty object. -/
def migrateInterestTypes (interests interestTypes : JsVal) : JsVal :=
  if truthy interests then
    match interests with
    | .arr items =>
        if items.length = 0 then .obj []
        else .obj (buildCategoryTypes (jsOr interestTypes (.obj [])) items)
    | _ => if typeofObj interestTypes then interestTypes else .obj []
  else .obj []

/-- `saveCvData(application, data)`: rebuild the document with per-field
defaulting, normalize the interests pair through the migrator, stamp
`lastUpdated` and upsert.  Returns the persisted document. -/
def saveCvData (now : String) (data : CvDoc) : CvDoc :=
  { experience := jsOr data.experience (.arr [])
    projects := jsOr data.projects (.arr [])
    skills := jsOr data.skills (.obj [])
    skillTypes := jsOr data.skillTypes (.obj [])
    education := jsOr data.education (.arr [])
    languages := jsOr data.languages (.arr [])
    interests := migrateInterests data.interests data.interestTypes
    interestTypes := migrateInterestTypes data.interests data.interestTypes
    lastUpdated := .str now }

/-- Dynamic field read `data[section]` on the CV document.  Documents
produced by `saveCvData` have exactly the fixed fields, so any other
section name reads `undefined`. -/
def getSection (data : CvDoc) : String → JsVal
  | "experience" => data.experience
  | "projects" => data.projects
  | "skills" => data.skills
  | "skillTypes" => data.skillTypes
  | "education" => data.education
  | "languages" => data.languages
  | "interests" => data.interests
  | "interestTypes" => data.interestTypes
  | "lastUpdated" => data.lastUpdated
  | _ => .undefined

/-- Dynamic field write `data[section] = v` on the CV document.  A write
to any other property name is dropped, which is observationally equal to
the JavaScript behaviour: `saveCvData` rebuilds the persisted document
from the fixed fields only. -/
def setSection (data : CvDoc) (sectionName : String) (v : JsVal) : CvDoc :=
  match sectionName with
  | "experience" => { data with experience := v }
  | "projects" => { data with projects := v }
  | "skills" => { data with skills := v }
  | "skillTypes" => { data with skillTypes := v }
  | "education" => { data with education := v }
  | "languages" => { data with languages := v }
  | "interests" => { data with interests := v }
  | "interestTypes" => { data with interestTypes := v }
  | "lastUpdated" => { data with lastUpdated := v }
  | _ => data

/-- Property write `v[key] = x` on an arbitrary value.  After the shape
guards in the category operations the target is always an object; in
JavaScript, assignment on `null`/primitive targets would throw, which
never arises on any path modelled here. -/
def jsSetProp (v : JsVal) (key : String) (x : JsVal) : JsVal :=
  match v with
  | .obj fields => .obj (objSet fields key x)
  | other => other

/-- `delete v[key]` on an arbitrary value (only ever applied to objects
here). -/
def jsDeleteProp (v : JsVal) (key : String) : JsVal :=
  match v with
  | .obj fields => .obj (objDelete fields key)
  | other => other

/-- `addToSection(application, section, item)`: append `item` to the named
array section (resetting a non-array section to `[]` first) and persist.
Returns the (store after, document returned to the caller). -/
def addToSection (store : Option CvDoc) (now : String) (sectionName : String)
    (item : JsVal) : Option CvDoc × CvDoc :=
  let data := loadOrDefault store
  let data :=
    match getSection data sectionName with
    | .arr xs => setSection data sectionName (.arr (xs ++ [item]))
    | _ => setSection data sectionName (.arr [item])
  let doc := saveCvData now data
  (some doc, doc)

/-- `updateInSection(application, section, index, item)`: replace the
element at `index` only under the bounds guard
`Array.isArray(data[section]) && index >= 0 && index < length`; the
document is persisted either way. -/
def updateInSection (store : Option CvDoc) (now : String) (sectionName : String)
    (index : Int) (item : JsVal) : Option CvDoc × CvDoc :=
  let data := loadOrDefault store
  let data :=
    match getSection data sectionName with
    | .arr xs =>
        if 0 ≤ index ∧ index < (xs.length : Int) then
          setSection data sectionName (.arr (jsArrSet xs index item))
        else data
    | _ => data
  let doc := saveCvData now data
  (some doc, doc)

/-- `removeFromSection(application, section, index)`: `splice(index, 1)`
under the same bounds guard; the document is persisted either way. -/
def removeFromSection (store : Option CvDoc) (now : String) (sectionName : String)
    (index : Int) : Option CvDoc × CvDoc :=
  let data := loadOrDefault store
  let data :=
    match getSection data sectionName with
    | .arr xs =>
        if 0 ≤ index ∧ index < (xs.length : Int) then
          setSection data sectionName (.arr (xs.eraseIdx index.toNat))
        else data
    | _ => data
  let doc := saveCvData now data
  (some doc, doc)

/-- `moveInSection(application, section, index, direction)`: compute the
adjacent target index; if the section is not an array or the target is out
of `[0, length)`, return the loaded document unchanged WITHOUT persisting;
otherwise swap `arr[index]` and `arr[targetIndex]` (the destructuring
swap reads both cells first, then assigns `arr[index]`, then
`arr[targetIndex]`) and persist.  Note the guard bounds only the target,
not `index` itself. -/
def moveInSection (store : Option CvDoc) (now : String) (sectionName : String)
    (index : Int) (direction : String) : Option CvDoc × CvDoc :=
  let data := loadOrDefault store
  match getSection data sectionName with
  | .arr xs =>
      let targetIndex := if direction = "up" then index - 1 else index + 1
      if targetIndex < 0 ∨ (xs.length : Int) ≤ targetIndex then (store, data)
      else
        let tmpT := jsArrGet xs targetIndex
        let tmpI := jsArrGet xs index
        let xs' := jsArrSet (jsArrSet xs index tmpT) targetIndex tmpI
        let doc := saveCvData now (setSection data sectionName (.arr xs'))
        (some doc, doc)
  | _ => (store, data)

/-- `addSkillCategory(application, category, items, skillType)`. -/
def addSkillCategory (store : Option CvDoc) (now : String) (category : String)
    (items skillType : JsVal) : CvDoc :=
  let data := loadOrDefault store
  let data :=
    if typeofObj data.skills = false ∨ isArr data.skills = true then
      { data with skills := .obj [] } else data
  let data :=
    if typeofObj data.skillTypes = false ∨ isArr data.skillTypes = true then
      { data with skillTypes := .obj [] } else data
  let data :=
    { data with
      skills := jsSetProp data.skills category items
      skillTypes := jsSetProp data.skillTypes category (jsOr skillType (.str "personal")) }
  saveCvData now data

/-- `editSkillCategory(application, oldCategory, newCategory, items,
skillType)`: on rename, the old key is deleted from each map only when its
current value is truthy there; then the new key is written to both. -/
def editSkillCategory (store : Option CvDoc) (now : String)
    (oldCategory newCategory : String) (items skillType : JsVal) : CvDoc :=
  let data := loadOrDefault store
  let data :=
    if typeofObj data.skills = false ∨ isArr data.skills = true then
      { data with skills := .obj [] } else data
  let data :=
    if typeofObj data.skillTypes = false ∨ isArr data.skillTypes = true then
      { data with skillTypes := .obj [] } else data
  let data :=
    if oldCategory ≠ newCategory ∧ truthy (jsIndex data.skills oldCategory) = true then
      { data with skills := jsDeleteProp data.skills oldCategory } else data
  let data :=
    if oldCategory ≠ newCategory ∧ truthy (jsIndex data.skillTypes oldCategory) = true then
      { data with skillTypes := jsDeleteProp data.skillTypes oldCategory } else data
  let data :=
    { data with
      skills := jsSetProp data.skills newCategory items
      skillTypes := jsSetProp data.skillTypes newCategory (jsOr skillType (.str "personal")) }
  saveCvData now data

/-- `removeSkillCategory(application, category)`: delete the key from each
map when `data.skills && data.skills[category]` (resp. for
`skillTypes`) is truthy. -/
def removeSkillCategory (store : Option CvDoc) (now : String)
    (category : String) : CvDoc :=
  let data := loadOrDefault store
  let data :=
    if truthy data.skills = true ∧ truthy (jsIndex data.skills category) = true then
      { data with skills := jsDeleteProp data.skills category } else data
  let data :=
    if truthy data.skillTypes = true ∧ truthy (jsIndex data.skillTypes category) = true then
      { data with skillTypes := jsDeleteProp data.skillTypes category } else data
  saveCvData now data

/-- A skill-category repository call with a list-valued `items` argument,
together with the timestamp of its save. -/
inductive SkillOp where
  | add (now : String) (category : String) (items : List JsVal) (skillType : JsVal)
  | edit (now : String) (oldCategory newCategory : String) (items : List JsVal)
      (skillType : JsVal)
  | remove (now : String) (category : String)

/-- Run one skill-category call against the store, returning the persisted
document. -/
def runSkillOp (store : Option CvDoc) : SkillOp → CvDoc
  | .add now c items t => addSkillCategory store now c (.arr items) t
  | .edit now o n items t => editSkillCategory store now o n (.arr items) t
  | .remove now c => removeSkillCategory store now c

/-- Run a sequence of skill-category calls; each call's persisted document
becomes the stored document seen by the next call. -/
def runSkillOps : List SkillOp → Option CvDoc → Option CvDoc
  | [], store => store
  | op :: ops, store => runSkillOps ops (some (runSkillOp store op))

/-- Sanity check: the concrete migration example from the test matrix. -/
example :
    migrateInterests (.arr [.str "Chess", .str "Docker"])
      (.obj [("Docker", .str "work")]) =
    .obj [("Personal", .arr [.str "Chess"]), ("Work", .arr [.str "Docker"])] := by
  decide

/-! ## The page configuration (`src/lib/storage/cvPageConfig.js` and the
page-builder controller) -/

/-- The `cvPageConfig` singleton document (fixed `_id: "cv-page"` key
omitted). -/
structure PageDoc where
  layout : JsVal
  hero : JsVal
  sections : JsVal
  sidebar : JsVal
  footer : JsVal
  identity : JsVal
  updatedAt : JsVal
deriving Repr, DecidableEq

/-- The configuration object handed to `saveConfig` by a controller. -/
structure PageConfigIn where
  layout : JsVal
  hero : JsVal
  sections : JsVal
  sidebar : JsVal
  footer : JsVal
  identity : JsVal
deriving Repr, DecidableEq

/-- `saveConfig(application, config)`: rebuild the document with per-field
`||` defaulting, stamp `updatedAt` and upsert.  Returns the persisted
document. -/
def saveConfig (now : String) (config : PageConfigIn) : PageDoc :=
  { layout := jsOr config.layout (.str "single-column")
    hero := jsOr config.hero (.obj [("enabled", .bool true), ("showSocial", .bool true)])
    sections := jsOr config.sections (.arr [])
    sidebar := jsOr config.sidebar (.arr [])
    footer := jsOr config.footer (.arr [])
    identity := jsOr config.identity .null
    updatedAt := .str now }

/-- A `{enabled, showSocial}` hero block of a preset. -/
structure Hero where
  enabled : Bool
  showSocial : Bool
deriving Repr, DecidableEq

/-- A `{type, config}` entry of a `sections`/`sidebar` list. -/
structure SectionEntry where
  type : String
  config : JsVal
deriving Repr, DecidableEq

/-- A preset template from the page builder's fixed catalog. -/
structure Preset where
  id : String
  label : String
  description : String
  layout : String
  hero : Hero
  sections : List SectionEntry
  sidebar : List SectionEntry
deriving Repr, DecidableEq

/-- `getCvPresets()`: the fixed, ordered catalog of CV presets. -/
def getCvPresets : List Preset :=
  [ { id := "professional-cv"
      label := "Professional CV"
      description := "Clean single-column layout with work-only sections for a professional resume"
      layout := "single-column"
      hero := { enabled := true, showSocial := true }
      sections :=
        [ { type := "cv-experience-work", config := .obj [] }
          , { type := "cv-skills-work", config := .obj [] }
          , { type := "cv-projects-work", config := .obj [] }
          , { type := "cv-education-work", config := .obj [] }
          , { type := "cv-languages", config := .obj [] }
          , { type := "cv-interests-work", config := .obj [] } ]
      sidebar := [] }
    , { id := "full-portfolio"
        label := "Full Portfolio"
        description := "Two-column layout showcasing both work and personal projects with sidebar"
        layout := "two-column"
        hero := { enabled := true, showSocial := true }
        sections :=
          [ { type := "cv-experience", config := .obj [("maxItems", .num 5)] }
            , { type := "cv-skills", config := .obj [] }
            , { type := "cv-projects", config := .obj [] }
            , { type := "cv-education", config := .obj [] }
            , { type := "cv-languages", config := .obj [] }
            , { type := "cv-interests", config := .obj [] } ]
        sidebar :=
          [ { type := "author-card", config := .obj [] }
            , { type := "social-activity", config := .obj [] }
            , { type := "github-repos", config := .obj [] } ] }
    , { id := "minimal"
        label := "Minimal"
        description := "Concise single-column layout with essential sections only"
        layout := "single-column"
        hero := { enabled := true, showSocial := true }
        sections :=
          [ { type := "cv-experience-work", config := .obj [("maxItems", .num 5)] }
            , { type := "cv-skills-work", config := .obj [] }
            , { type := "cv-education-work", config := .obj [] } ]
        sidebar := [] } ]

/-- The view of a page configuration that `detectActivePreset` inspects:
its layout and its `{type, config}` section and sidebar lists (`none`
models an absent/null list, defaulted by `config.sections || []`). -/
structure BuilderConfig where
  layout : String
  sections : Option (List SectionEntry)
  sidebar : Option (List SectionEntry)
deriving Repr, DecidableEq

/-- `entries.map((s) => s.type).join(",")`. -/
def joinTypes (entries : List SectionEntry) : String :=
  joinStr (entries.map (·.type))

/-- `detectActivePreset(config, presets)`: first preset in catalog order
whose layout equals the config's and whose comma-joined section-type and
sidebar-type strings equal the config's; `null` when none matches. -/
def detectActivePreset (config : BuilderConfig) : List Preset → Option String
  | [] => none
  | preset :: rest =>
      if config.layout ≠ preset.layout then detectActivePreset config rest
      else if joinTypes (config.sections.getD []) ≠ joinTypes preset.sections then
        detectActivePreset config rest
      else if joinTypes (config.sidebar.getD []) ≠ joinTypes preset.sidebar then
        detectActivePreset config rest
      else some preset.id

/-- Modelled from the spec: a preset matches iff the layout is exactly
equal AND the ordered sequence of `type` values in `sections` is exactly
equal (same length, same order, same values) to the preset's AND the same
holds for `sidebar`. -/
def presetMatchesSpec (config : BuilderConfig) (preset : Preset) : Bool :=
  config.layout == preset.layout
    && (config.sections.getD []).map (·.type) == preset.sections.map (·.type)
    && (config.sidebar.getD []).map (·.type) == preset.sidebar.map (·.type)

/-- Modelled from the spec: return the first matching preset's identifier
in catalog order, or "no match". -/
def detectActivePresetSpec (config : BuilderConfig) (presets : List Preset) :
    Option String :=
  (presets.find? (presetMatchesSpec config)).map (·.id)

/-- The hero block of a preset as a JS object (`{...preset.hero}`). -/
def heroJs (h : Hero) : JsVal :=
  .obj [("enabled", .bool h.enabled), ("showSocial", .bool h.showSocial)]

/-- A `{type, config}` entry as a JS object (`{...s}`). -/
def sectionEntryJs (e : SectionEntry) : JsVal :=
  .obj [("type", .str e.type), ("config", e.config)]

/-- `currentConfig?.field`: optional chaining against the loaded page
configuration (`null` loads give `undefined`). -/
def optField (store : Option PageDoc) (f : PageDoc → JsVal) : JsVal :=
  match store with
  | some d => f d
  | none => .undefined

/-- `pageBuilderController.applyPreset`: look the preset up by id; on a
miss, respond 400 and save nothing (the store is returned unchanged); on a
hit, build a config from the preset's layout/hero/sections/sidebar and the
stored footer/identity (with `|| []` / `|| null` defaulting) and persist
it.  Returns the store after the call. -/
def applyPreset (store : Option PageDoc) (now : String) (presetId : String) :
    Option PageDoc :=
  match getCvPresets.find? (fun p => p.id == presetId) with
  | none => store
  | some preset =>
      let config : PageConfigIn :=
        { layout := .str preset.layout
          hero := heroJs preset.hero
          sections := .arr (preset.sections.map sectionEntryJs)
          sidebar := .arr (preset.sidebar.map sectionEntryJs)
          footer := jsOr (optField store (·.footer)) (.arr [])
          identity := jsOr (optField store (·.identity)) .null }
      some (saveConfig now config)

/-- The closed layout enum of the page-builder save controller. -/
def validLayouts : List JsVal :=
  [.str "single-column", .str "two-column", .str "full-width-hero"]

/-- The config object built by `pageBuilderController.save` from the
(JSON-parsed) request body fields and the currently stored configuration:
`validLayouts.includes(layout) ? layout : "single-column"`, object/array
shape checks on hero/sections/sidebar/footer, and
`currentConfig?.identity || null`. -/
def buildSaveConfig (layout parsedHero parsedSections parsedSidebar parsedFooter : JsVal)
    (currentConfig : Option PageDoc) : PageConfigIn :=
  { layout := if layout ∈ validLayouts then layout else .str "single-column"
    hero :=
      if typeofObj parsedHero = true ∧ parsedHero ≠ .null then parsedHero
      else .obj [("enabled", .bool true), ("showSocial", .bool true)]
    sections := if isArr parsedSections then parsedSections else .arr []
    sidebar := if isArr parsedSidebar then parsedSidebar else .arr []
    footer := if isArr parsedFooter then parsedFooter else .arr []
    identity := jsOr (optField currentConfig (·.identity)) .null }

/-! ## Supporting lemmas -/

/-- An already-migrated (object-shaped) interests value passes through
`migrateInterests` unchanged. -/
theorem migrateInterests_obj (f : List (String × JsVal)) (t : JsVal) :
    migrateInterests (.obj f) t = .obj f := by
  simp [migrateInterests, truthy, typeofObj]

/-- With object-shaped interests and interestTypes, `migrateInterestTypes`
passes the types object through. -/
theorem migrateInterestTypes_obj_obj (f g : List (String × JsVal)) :
    migrateInterestTypes (.obj f) (.obj g) = .obj g := by
  simp [migrateInterestTypes, truthy, typeofObj]

/-- `migrateInterests` applied to a legacy array always yields an
object. -/
theorem migrateInterests_arr_isObjMap (items : List JsVal) (t : JsVal) :
    isObjMap (migrateInterests (.arr items) t) = true := by
  simp only [migrateInterests, truthy, if_true]
  split <;> simp [isObjMap]

/-- `migrateInterestTypes` applied to a legacy array always yields an
object. -/
theorem migrateInterestTypes_arr_isObjMap (items : List JsVal) (t : JsVal) :
    isObjMap (migrateInterestTypes (.arr items) t) = true := by
  simp only [migrateInterestTypes, truthy, if_true]
  split <;> simp [isObjMap]

/-! ## C3 -/

/-- C3: for every input data object, the document persisted and returned
by `saveCvData` has `interests` in the current map (non-array object)
shape; a legacy flat-array `interests` value never results in an array
being stored.  This holds on every persist, whichever repository operation
triggered the save, since every save path goes through `saveCvData`. -/
theorem saveCvData_interests_isObjMap_C3 (now : String) (data : CvDoc) :
    isObjMap (saveCvData now data).interests = true := by
  show isObjMap (migrateInterests data.interests data.interestTypes) = true
  cases h : data.interests with
  | arr items => exact migrateInterests_arr_isObjMap items data.interestTypes
  | null => simp [migrateInterests, truthy, isObjMap]
  | undefined => simp [migrateInterests, truthy, isObjMap]
  | bool b => cases b <;> simp [migrateInterests, truthy, typeofObj, isObjMap]
  | num n =>
      by_cases hn : n = 0 <;>
        simp [migrateInterests, truthy, typeofObj, isObjMap, hn]
  | str s =>
      by_cases hs : s = "" <;>
        simp [migrateInterests, truthy, typeofObj, isObjMap, hs]
  | obj f => simp [migrateInterests, truthy, typeofObj, isObjMap]

/-! ## C5 -/

/-- C5: the interests migration is idempotent.  For every legacy input
pair (an `interests` array and an `interestTypes` map), applying
`migrateInterests` and `migrateInterestTypes` to their own output yields
that output again. -/
theorem migration_idempotent_C5 (items : List JsVal) (tm : List (String × JsVal)) :
    migrateInterests (migrateInterests (.arr items) (.obj tm))
        (migrateInterestTypes (.arr items) (.obj tm)) =
      migrateInterests (.arr items) (.obj tm) ∧
    migrateInterestTypes (migrateInterests (.arr items) (.obj tm))
        (migrateInterestTypes (.arr items) (.obj tm)) =
      migrateInterestTypes (.arr items) (.obj tm) := by
  have h1 := migrateInterests_arr_isObjMap items (.obj tm)
  have h2 := migrateInterestTypes_arr_isObjMap items (.obj tm)
  cases hi : migrateInterests (.arr items) (.obj tm) with
  | obj g =>
      cases ht : migrateInterestTypes (.arr items) (.obj tm) with
      | obj ct => exact ⟨migrateInterests_obj g (.obj ct), migrateInterestTypes_obj_obj g ct⟩
      | null => rw [ht] at h2; simp [isObjMap] at h2
      | undefined => rw [ht] at h2; simp [isObjMap] at h2
      | bool b => rw [ht] at h2; simp [isObjMap] at h2
      | num n => rw [ht] at h2; simp [isObjMap] at h2
      | str s => rw [ht] at h2; simp [isObjMap] at h2
      | arr a => rw [ht] at h2; simp [isObjMap] at h2
  | null => rw [hi] at h1; simp [isObjMap] at h1
  | undefined => rw [hi] at h1; simp [isObjMap] at h1
  | bool b => rw [hi] at h1; simp [isObjMap] at h1
  | num n => rw [hi] at h1; simp [isObjMap] at h1
  | str s => rw [hi] at h1; simp [isObjMap] at h1
  | arr a => rw [hi] at h1; simp [isObjMap] at h1

/-! ## C6 -/

/-- C6: on the legacy input `interests = ["Chess","Docker"]`,
`interestTypes = {"Docker":"work"}`, the migration produces
`interests = {"Personal":["Chess"], "Work":["Docker"]}` and
`interestTypes = {"Personal":"personal", "Work":"work"}`: items without a
classifier default to `"personal"` and group under `"Personal"`, `"work"`
items group under `"Work"`, in encounter order. -/
theorem migration_grouping_C6 :
    migrateInterests (.arr [.str "Chess", .str "Docker"])
        (.obj [("Docker", .str "work")]) =
      .obj [("Personal", .arr [.str "Chess"]), ("Work", .arr [.str "Docker"])] ∧
    migrateInterestTypes (.arr [.str "Chess", .str "Docker"])
        (.obj [("Docker", .str "work")]) =
      .obj [("Personal", .str "personal"), ("Work", .str "work")] := by
  decide

/-! ## C7 -/

/-- C7 counterexample: with map-shaped `interests = {}`,
`migrateInterestTypes` does NOT reset a non-map `interestTypes` to the
empty map in every case: `null` is returned as `null` and an array is
passed through as-is, because the code's guard is
`typeof interestTypes === "object"` and in JavaScript
`typeof null === "object"` and `typeof [] === "object"`. -/
theorem migrateInterestTypes_C7_counterexample :
    migrateInterestTypes (.obj []) .null = .null ∧
    JsVal.null ≠ .obj [] ∧
    migrateInterestTypes (.obj []) (.arr [.str "x"]) = .arr [.str "x"] ∧
    JsVal.arr [.str "x"] ≠ .obj [] := by
  decide

/-- C7 amended: for map-shaped `interests`, `migrateInterestTypes` passes
`interestTypes` through whenever `typeof interestTypes === "object"` —
which holds for map-shaped values but also for `null` and arrays — and
returns the empty map exactly for the remaining values (strings, numbers,
booleans, `undefined`). -/
theorem migrateInterestTypes_obj_C7_amended (f : List (String × JsVal)) (t : JsVal) :
    migrateInterestTypes (.obj f) t =
      (if typeofObj t = true then t else .obj []) := by
  simp [migrateInterestTypes, truthy]

/-! ## C9 -/

/-- C9: for every page-builder configuration save, the persisted `layout`
is in the closed enum `{single-column, two-column, full-width-hero}`; a
supplied layout value outside the enum is coerced to `"single-column"`
before being stored. -/
theorem pageSave_layout_C9
    (layout parsedHero parsedSections parsedSidebar parsedFooter : JsVal)
    (currentConfig : Option PageDoc) (now : String) :
    (saveConfig now (buildSaveConfig layout parsedHero parsedSections parsedSidebar
        parsedFooter currentConfig)).layout =
      (if layout ∈ validLayouts then layout else .str "single-column") ∧
    (saveConfig now (buildSaveConfig layout parsedHero parsedSections parsedSidebar
        parsedFooter currentConfig)).layout ∈ validLayouts := by
  have hlay :
      (saveConfig now (buildSaveConfig layout parsedHero parsedSections parsedSidebar
          parsedFooter currentConfig)).layout =
        jsOr (if layout ∈ validLayouts then layout else .str "single-column")
          (.str "single-column") := rfl
  rw [hlay]
  by_cases h : layout ∈ validLayouts
  · have htr : truthy layout = true := by
      have hall : ∀ v ∈ validLayouts, truthy v = true := by decide
      exact hall layout h
    rw [if_pos h]
    exact ⟨by simp [jsOr, htr], by simpa [jsOr, htr] using h⟩
  · rw [if_neg h]
    exact ⟨by decide, by decide⟩

/-! ## C1 / C2 -/

/-- `saveCvData` passes an array-valued ordered section through
unchanged (arrays are truthy, so the `|| []` default never fires). -/
theorem saveCvData_preserves_arr_section (now : String) (d : CvDoc) (s : String)
    (xs : List JsVal)
    (hs : s = "experience" ∨ s = "projects" ∨ s = "education" ∨ s = "languages")
    (h : getSection d s = .arr xs) :
    getSection (saveCvData now d) s = .arr xs := by
  rcases hs with rfl | rfl | rfl | rfl <;>
    · simp only [getSection] at h ⊢
      simp [saveCvData, jsOr, truthy, h]

/-- `moveInSection` with an out-of-range target index is a complete no-op:
nothing is persisted and the loaded document is returned. -/
theorem moveInSection_target_oob (store : Option CvDoc) (now : String) (s : String)
    (i : Int) (direction : String) (xs : List JsVal)
    (hget : getSection (loadOrDefault store) s = .arr xs)
    (hoob : (if direction = "up" then i - 1 else i + 1) < 0 ∨
      (xs.length : Int) ≤ (if direction = "up" then i - 1 else i + 1)) :
    moveInSection store now s i direction = (store, loadOrDefault store) := by
  unfold moveInSection
  simp only [hget]
  rw [if_pos hoob]

/-- `moveInSection` on a non-array section value is a complete no-op. -/
theorem moveInSection_not_array (store : Option CvDoc) (now : String) (s : String)
    (i : Int) (direction : String)
    (hna : isArr (getSection (loadOrDefault store) s) = false) :
    moveInSection store now s i direction = (store, loadOrDefault store) := by
  unfold moveInSection
  cases h : getSection (loadOrDefault store) s <;> simp_all [isArr]

/-- C1 counterexample: `moveInSection` is NOT a silent no-op on every
out-of-range index.  On a stored document whose `experience` list is
`["a"]` (length 1), index `-1` with direction `"down"` is out of `[0, 1)`,
yet the computed target index `0` passes the guard and the destructuring
swap overwrites element 0 with `undefined` (reading `arr[-1]`), and the
mutated document is persisted. -/
theorem moveInSection_C1_counterexample :
    ¬ (0 ≤ (-1 : Int) ∧ (-1 : Int) < ((1 : Nat) : Int)) ∧
    getSection
      (loadOrDefault (some { getDefaultCvData with experience := .arr [.str "a"] }))
      "experience" = .arr [.str "a"] ∧
    getSection
      (moveInSection (some { getDefaultCvData with experience := .arr [.str "a"] })
        "t" "experience" (-1) "down").2 "experience" = .arr [.undefined] ∧
    JsVal.arr [.undefined] ≠ .arr [.str "a"] := by
  decide

/-- C1 amended: for the ordered sections (`experience`, `projects`,
`education`, `languages`) stored as a list of length `n` and an index
outside `[0, n)`: `updateInSection` and `removeFromSection` are silent
no-ops on the section — they never raise (they are total functions) and
the document the caller gets back has the section list unchanged (it is
still persisted, with a new timestamp and interests normalization);
`moveInSection` is a complete no-op (nothing persisted, loaded document
returned) exactly when the computed TARGET index `index∓1` is out of
`[0, n)` — for index `-1` with `"down"` or index `n` with `"up"` the
target is in range and the list IS mutated — and always a complete no-op
when the named section is not list-valued. -/
theorem sectionOps_out_of_range_C1_amended :
    (∀ (store : Option CvDoc) (now : String) (s : String) (i : Int) (item : JsVal)
        (xs : List JsVal),
      (s = "experience" ∨ s = "projects" ∨ s = "education" ∨ s = "languages") →
      getSection (loadOrDefault store) s = .arr xs →
      ¬ (0 ≤ i ∧ i < (xs.length : Int)) →
      getSection (updateInSection store now s i item).2 s = .arr xs) ∧
    (∀ (store : Option CvDoc) (now : String) (s : String) (i : Int)
        (xs : List JsVal),
      (s = "experience" ∨ s = "projects" ∨ s = "education" ∨ s = "languages") →
      getSection (loadOrDefault store) s = .arr xs →
      ¬ (0 ≤ i ∧ i < (xs.length : Int)) →
      getSection (removeFromSection store now s i).2 s = .arr xs) ∧
    (∀ (store : Option CvDoc) (now : String) (s : String) (i : Int)
        (direction : String) (xs : List JsVal),
      getSection (loadOrDefault store) s = .arr xs →
      ((if direction = "up" then i - 1 else i + 1) < 0 ∨
        (xs.length : Int) ≤ (if direction = "up" then i - 1 else i + 1)) →
      moveInSection store now s i direction = (store, loadOrDefault store)) ∧
    (∀ (store : Option CvDoc) (now : String) (s : String) (i : Int)
        (direction : String),
      isArr (getSection (loadOrDefault store) s) = false →
      moveInSection store now s i direction = (store, loadOrDefault store)) := by
  refine ⟨?_, ?_, ?_, ?_⟩
  · intro store now s i item xs hs hget hout
    have hsame : (updateInSection store now s i item).2 =
        saveCvData now (loadOrDefault store) := by
      unfold updateInSection
      simp only [hget, if_neg hout]
    rw [hsame]
    exact saveCvData_preserves_arr_section now _ s xs hs hget
  · intro store now s i xs hs hget hout
    have hsame : (removeFromSection store now s i).2 =
        saveCvData now (loadOrDefault store) := by
      unfold removeFromSection
      simp only [hget, if_neg hout]
    rw [hsame]
    exact saveCvData_preserves_arr_section now _ s xs hs hget
  · exact fun store now s i direction xs hget hoob =>
      moveInSection_target_oob store now s i direction xs hget hoob
  · exact fun store now s i direction hna =>
      moveInSection_not_array store now s i direction hna

/-- Witness for the C1 amended theorem at concrete inputs: out-of-range
update and remove on the default (empty) sections, an out-of-target move,
and a move on the non-list `skills` section. -/
theorem sectionOps_out_of_range_C1_witness :
    getSection (updateInSection none "t" "experience" 5 (.str "x")).2 "experience" =
      .arr [] ∧
    getSection (removeFromSection none "t" "projects" (-2)).2 "projects" = .arr [] ∧
    moveInSection none "t" "education" 0 "up" = (none, getDefaultCvData) ∧
    moveInSection none "t" "skills" 0 "down" = (none, getDefaultCvData) := by
  refine ⟨?_, ?_, ?_, ?_⟩
  · exact sectionOps_out_of_range_C1_amended.1 none "t" "experience" 5 (.str "x") []
      (Or.inl rfl) rfl (by decide)
  · exact sectionOps_out_of_range_C1_amended.2.1 none "t" "projects" (-2) []
      (Or.inr (Or.inl rfl)) rfl (by decide)
  · exact sectionOps_out_of_range_C1_amended.2.2.1 none "t" "education" 0 "up" []
      rfl (by decide)
  · exact sectionOps_out_of_range_C1_amended.2.2.2 none "t" "skills" 0 "down"
      (by decide)

/-- C2 counterexample: a boundary move does NOT persist the document and
does NOT stamp a new `lastUpdated`.  With a stored document whose
`experience` is `["a"]` and whose `lastUpdated` is `"old"`, calling
`moveInSection(..., 0, "up")` at timestamp `"2026-02-03"` leaves the store
exactly as it was, `lastUpdated` still `"old"`. -/
theorem moveInSection_C2_counterexample :
    (moveInSection
        (some { getDefaultCvData with
                  experience := .arr [.str "a"], lastUpdated := .str "old" })
        "2026-02-03" "experience" 0 "up").1 =
      some { getDefaultCvData with
               experience := .arr [.str "a"], lastUpdated := .str "old" } ∧
    JsVal.str "old" ≠ .str "2026-02-03" := by
  decide

/-- C2 amended: for an ordered section stored as a list of length `n`,
`moveInSection(section, 0, "up")` and `moveInSection(section, n-1,
"down")` leave the sequence unchanged and return the loaded document, but
do NOT persist anything: the stored document - and hence its
`lastUpdated` - is untouched. -/
theorem moveInSection_boundary_C2_amended (store : Option CvDoc) (now : String)
    (s : String) (xs : List JsVal)
    (hget : getSection (loadOrDefault store) s = .arr xs) :
    moveInSection store now s 0 "up" = (store, loadOrDefault store) ∧
    moveInSection store now s ((xs.length : Int) - 1) "down" =
      (store, loadOrDefault store) := by
  constructor
  · exact moveInSection_target_oob store now s 0 "up" xs hget (by simp)
  · exact moveInSection_target_oob store now s ((xs.length : Int) - 1) "down" xs hget
      (by simp)

/-- Witness for the C2 amended theorem at a concrete stored document with
a two-element `experience` list. -/
theorem moveInSection_boundary_C2_witness :
    moveInSection (some { getDefaultCvData with experience := .arr [.str "a", .str "b"] })
        "t" "experience" 0 "up" =
      (some { getDefaultCvData with experience := .arr [.str "a", .str "b"] },
        { getDefaultCvData with experience := .arr [.str "a", .str "b"] }) ∧
    moveInSection (some { getDefaultCvData with experience := .arr [.str "a", .str "b"] })
        "t" "experience" 1 "down" =
      (some { getDefaultCvData with experience := .arr [.str "a", .str "b"] },
        { getDefaultCvData with experience := .arr [.str "a", .str "b"] }) := by
  have h := moveInSection_boundary_C2_amended
    (some { getDefaultCvData with experience := .arr [.str "a", .str "b"] })
    "t" "experience" [.str "a", .str "b"] rfl
  exact ⟨h.1, h.2⟩

/-! ## C10 -/

/-- Every preset in the fixed catalog has a truthy (non-empty string)
layout. -/
theorem getCvPresets_layout_truthy :
    ∀ p ∈ getCvPresets, truthy (.str p.layout) = true := by
  decide

/-- C10: applying a known preset persists a configuration whose `layout`,
`hero`, `sections` and `sidebar` are exactly the preset's values, while
the previously stored `footer` and `identity` are carried over unchanged —
defaulting to the empty list resp. `null` when no configuration was stored
— and a fresh `updatedAt` is stamped.  For an unknown `presetId` nothing
is saved and the stored configuration is unchanged.  The hypothesis on the
stored document (array-valued `footer`, `null`-or-truthy `identity`) holds
for every document `saveConfig` can produce from the controllers, which
normalize `footer` with `|| []` and `identity` with `|| null`. -/
theorem applyPreset_C10 :
    (∀ (store : Option PageDoc) (now : String) (presetId : String) (preset : Preset),
      getCvPresets.find? (fun p => p.id == presetId) = some preset →
      (∀ d, store = some d →
        isArr d.footer = true ∧ (d.identity = .null ∨ truthy d.identity = true)) →
      applyPreset store now presetId = some
        { layout := .str preset.layout
          hero := heroJs preset.hero
          sections := .arr (preset.sections.map sectionEntryJs)
          sidebar := .arr (preset.sidebar.map sectionEntryJs)
          footer := (match store with | some d => d.footer | none => .arr [])
          identity := (match store with | some d => d.identity | none => .null)
          updatedAt := .str now }) ∧
    (∀ (store : Option PageDoc) (now : String) (presetId : String),
      getCvPresets.find? (fun p => p.id == presetId) = none →
      applyPreset store now presetId = store) := by
  constructor
  · intro store now presetId preset hfind hstore
    have hmem : preset ∈ getCvPresets := List.mem_of_find?_eq_some hfind
    have hlay : truthy (.str preset.layout) = true :=
      getCvPresets_layout_truthy preset hmem
    unfold applyPreset
    rw [hfind]
    simp only [saveConfig, Option.some.injEq, PageDoc.mk.injEq]
    refine ⟨?_, ?_, ?_, ?_, ?_, ?_, ?_⟩
    · simp [jsOr, hlay]
    · simp [jsOr, heroJs, truthy]
    · simp [jsOr, truthy]
    · simp [jsOr, truthy]
    · cases store with
      | none => simp [optField, jsOr, truthy]
      | some d =>
          have hf := (hstore d rfl).1
          cases hfoot : d.footer <;> simp_all [optField, jsOr, truthy, isArr]
    · cases store with
      | none => simp [optField, jsOr, truthy]
      | some d =>
          rcases (hstore d rfl).2 with hid | hid
          · simp [optField, jsOr, hid, truthy]
          · simp [optField, jsOr, hid]
    · trivial
  · intro store now presetId hfind
    unfold applyPreset
    rw [hfind]

/-- Witness for the C10 theorem: applying `"minimal"` to an empty store,
and an unknown preset id to an empty store. -/
theorem applyPreset_C10_witness :
    applyPreset none "t0" "minimal" = some
      { layout := .str "single-column"
        hero := .obj [("enabled", .bool true), ("showSocial", .bool true)]
        sections := .arr
          [ .obj [("type", .str "cv-experience-work"),
                  ("config", .obj [("maxItems", .num 5)])]
            , .obj [("type", .str "cv-skills-work"), ("config", .obj [])]
            , .obj [("type", .str "cv-education-work"), ("config", .obj [])] ]
        sidebar := .arr []
        footer := .arr []
        identity := .null
        updatedAt := .str "t0" } ∧
    applyPreset none "t0" "no-such-preset" = none := by
  constructor
  · exact applyPreset_C10.1 none "t0" "minimal"
      { id := "minimal"
        label := "Minimal"
        description := "Concise single-column layout with essential sections only"
        layout := "single-column"
        hero := { enabled := true, showSocial := true }
        sections :=
          [ { type := "cv-experience-work", config := .obj [("maxItems", .num 5)] }
            , { type := "cv-skills-work", config := .obj [] }
            , { type := "cv-education-work", config := .obj [] } ]
        sidebar := [] }
      (by decide) (fun d h => by cases h)
  · exact applyPreset_C10.2 none "t0" "no-such-preset" (by decide)

/-! ## C8 -/

/-- Keys after a property write: an existing key keeps the key list
unchanged, a new key is appended. -/
theorem objSet_keys (f : List (String × JsVal)) (k : String) (v : JsVal) :
    (objSet f k v).map Prod.fst =
      (if k ∈ f.map Prod.fst then f.map Prod.fst else f.map Prod.fst ++ [k]) := by
  induction f with
  | nil => simp [objSet]
  | cons p rest ih =>
      obtain ⟨k', w⟩ := p
      by_cases hk : k' = k
      · subst hk
        simp [objSet]
      · simp only [objSet, if_neg hk, List.map_cons, ih]
        have hne : ¬ k = k' := fun h => hk h.symm
        by_cases hmem : k ∈ rest.map Prod.fst <;>
          simp [List.mem_cons, hne, hmem]

/-- Two field lists with the same key list still have the same key list
after writing the same key into both. -/
theorem objSet_keys_congr (s t : List (String × JsVal)) (k : String) (v w : JsVal)
    (h : s.map Prod.fst = t.map Prod.fst) :
    (objSet s k v).map Prod.fst = (objSet t k w).map Prod.fst := by
  rw [objSet_keys, objSet_keys, h]

/-- Two field lists with the same key list still have the same key list
after deleting the same key from both. -/
theorem objDelete_keys_congr :
    ∀ (s t : List (String × JsVal)) (k : String),
      s.map Prod.fst = t.map Prod.fst →
      (objDelete s k).map Prod.fst = (objDelete t k).map Prod.fst
  | [], [], _, _ => rfl
  | [], (q :: t), k, h => by simp at h
  | (p :: s), [], k, h => by simp at h
  | (p :: s), (q :: t), k, h => by
      obtain ⟨k1, v⟩ := p
      obtain ⟨k2, w⟩ := q
      simp only [List.map_cons, List.cons.injEq] at h
      obtain ⟨hk, hrest⟩ := h
      subst hk
      by_cases hdel : k1 = k
      · simp only [objDelete, if_pos hdel]
        exact objDelete_keys_congr s t k hrest
      · simp only [objDelete, if_neg hdel, List.map_cons]
        rw [objDelete_keys_congr s t k hrest]

/-- Every binding of `objSet f k v` is either the written binding or a
binding of `f`. -/
theorem objSet_mem (f : List (String × JsVal)) (k : String) (v : JsVal) :
    ∀ p ∈ objSet f k v, p.2 = v ∨ p ∈ f := by
  induction f with
  | nil => intro p hp; simp [objSet] at hp; simp [hp]
  | cons q rest ih =>
      obtain ⟨k', w⟩ := q
      intro p hp
      by_cases hk : k' = k
      · subst hk
        simp only [objSet, if_pos rfl] at hp
        cases hp with
        | head => exact Or.inl rfl
        | tail _ hp => exact Or.inr (List.mem_cons_of_mem _ hp)
      · simp only [objSet, if_neg hk] at hp
        cases hp with
        | head => exact Or.inr (List.mem_cons_self _ _)
        | tail _ hp =>
            rcases ih _ hp with h | h
            · exact Or.inl h
            · exact Or.inr (List.mem_cons_of_mem _ h)

/-- Every binding of `objDelete f k` is a binding of `f`. -/
theorem objDelete_mem (f : List (String × JsVal)) (k : String) :
    ∀ p ∈ objDelete f k, p ∈ f := by
  induction f with
  | nil => intro p hp; simp [objDelete] at hp
  | cons q rest ih =>
      obtain ⟨k', w⟩ := q
      intro p hp
      by_cases hk : k' = k
      · simp only [objDelete, if_pos hk] at hp
        exact List.mem_cons_of_mem _ (ih p hp)
      · simp only [objDelete, if_neg hk, List.mem_cons] at hp
        rcases hp with rfl | hp
        · exact List.mem_cons_self _ _
        · exact List.mem_cons_of_mem _ (ih p hp)

/-- When every stored value is truthy, a property read is truthy exactly
when the key is present. -/
theorem objGet_truthy_iff (f : List (String × JsVal)) (k : String)
    (hv : ∀ p ∈ f, truthy p.2 = true) :
    truthy (objGet f k) = true ↔ k ∈ f.map Prod.fst := by
  induction f with
  | nil => simp [objGet, truthy]
  | cons q rest ih =>
      obtain ⟨k', w⟩ := q
      by_cases hk : k' = k
      · subst hk
        have hw := hv (k', w) (List.mem_cons_self _ _)
        simp [objGet, hw]
      · have hne : ¬ k = k' := fun h => hk h.symm
        simp only [objGet, if_neg hk, List.map_cons, List.mem_cons]
        rw [ih (fun p hp => hv p (List.mem_cons_of_mem _ hp))]
        simp [hne]

/-- The well-formedness invariant of the skills pair: both maps are
objects, all stored values are truthy (skill lists are arrays, classifiers
are non-empty strings), and the key lists coincide. -/
def SkillsWF (d : CvDoc) : Prop :=
  ∃ s t, d.skills = .obj s ∧ d.skillTypes = .obj t ∧
    (∀ p ∈ s, truthy p.2 = true) ∧ (∀ p ∈ t, truthy p.2 = true) ∧
    s.map Prod.fst = t.map Prod.fst

theorem skillsWF_default : SkillsWF getDefaultCvData :=
  ⟨[], [], rfl, rfl, by simp, by simp, rfl⟩

/-- `skillType || "personal"` is always truthy. -/
theorem jsOr_personal_truthy (v : JsVal) : truthy (jsOr v (.str "personal")) = true := by
  by_cases h : truthy v = true
  · rw [jsOr, if_pos h]
    exact h
  · rw [jsOr, if_neg h]
    decide

/-- `saveCvData` preserves the skills invariant (object fields are truthy,
so the `||` defaults pass them through, and the migrator does not touch
`skills`/`skillTypes`). -/
theorem saveCvData_skillsWF (now : String) (d : CvDoc) (h : SkillsWF d) :
    SkillsWF (saveCvData now d) := by
  obtain ⟨s, t, hs, ht, hvs, hvt, hk⟩ := h
  exact ⟨s, t, by simp [saveCvData, hs, jsOr, truthy],
    by simp [saveCvData, ht, jsOr, truthy], hvs, hvt, hk⟩

/-- `addSkillCategory` with a truthy `items` value preserves the skills
invariant. -/
theorem addSkillCategory_WF (store : Option CvDoc) (now category : String)
    (items skillType : JsVal) (hitems : truthy items = true)
    (h : SkillsWF (loadOrDefault store)) :
    SkillsWF (addSkillCategory store now category items skillType) := by
  obtain ⟨s, t, hs, ht, hvs, hvt, hk⟩ := h
  apply saveCvData_skillsWF
  refine ⟨objSet s category items, objSet t category (jsOr skillType (.str "personal")),
    ?_, ?_, ?_, ?_, ?_⟩
  · simp [addSkillCategory, hs, ht, typeofObj, isArr, jsSetProp]
  · simp [addSkillCategory, hs, ht, typeofObj, isArr, jsSetProp]
  · intro p hp
    rcases objSet_mem s category items p hp with h | h
    · rw [h]; exact hitems
    · exact hvs p h
  · intro p hp
    rcases objSet_mem t category _ p hp with h | h
    · rw [h]; exact jsOr_personal_truthy skillType
    · exact hvt p h
  · exact objSet_keys_congr s t category _ _ hk

/-- `editSkillCategory` with a truthy `items` value preserves the skills
invariant: because the key lists coincide and all stored values are
truthy, the two rename-delete guards fire together. -/
theorem editSkillCategory_WF (store : Option CvDoc) (now oldCategory newCategory : String)
    (items skillType : JsVal) (hitems : truthy items = true)
    (h : SkillsWF (loadOrDefault store)) :
    SkillsWF (editSkillCategory store now oldCategory newCategory items skillType) := by
  obtain ⟨s, t, hs, ht, hvs, hvt, hk⟩ := h
  have hcond : (truthy (objGet s oldCategory) = true) ↔
      (truthy (objGet t oldCategory) = true) := by
    rw [objGet_truthy_iff s oldCategory hvs, objGet_truthy_iff t oldCategory hvt, hk]
  apply saveCvData_skillsWF
  by_cases hc : oldCategory ≠ newCategory ∧ truthy (objGet s oldCategory) = true
  · have hct : oldCategory ≠ newCategory ∧ truthy (objGet t oldCategory) = true :=
      ⟨hc.1, hcond.mp hc.2⟩
    refine ⟨objSet (objDelete s oldCategory) newCategory items,
      objSet (objDelete t oldCategory) newCategory (jsOr skillType (.str "personal")),
      ?_, ?_, ?_, ?_, ?_⟩
    · simp [editSkillCategory, hs, ht, typeofObj, isArr, jsSetProp, jsDeleteProp,
        jsIndex, hc, hct]
    · simp [editSkillCategory, hs, ht, typeofObj, isArr, jsSetProp, jsDeleteProp,
        jsIndex, hc, hct]
    · intro p hp
      rcases objSet_mem _ newCategory items p hp with h | h
      · rw [h]; exact hitems
      · exact hvs p (objDelete_mem s oldCategory p h)
    · intro p hp
      rcases objSet_mem _ newCategory _ p hp with h | h
      · rw [h]; exact jsOr_personal_truthy skillType
      · exact hvt p (objDelete_mem t oldCategory p h)
    · exact objSet_keys_congr _ _ newCategory _ _
        (objDelete_keys_congr s t oldCategory hk)
  · have hct : ¬ (oldCategory ≠ newCategory ∧ truthy (objGet t oldCategory) = true) := by
      intro hx
      exact hc ⟨hx.1, hcond.mpr hx.2⟩
    refine ⟨objSet s newCategory items,
      objSet t newCategory (jsOr skillType (.str "personal")), ?_, ?_, ?_, ?_, ?_⟩
    · simp [editSkillCategory, hs, ht, typeofObj, isArr, jsSetProp, jsDeleteProp,
        jsIndex, hc, hct]
    · simp [editSkillCategory, hs, ht, typeofObj, isArr, jsSetProp, jsDeleteProp,
        jsIndex, hc, hct]
    · intro p hp
      rcases objSet_mem s newCategory items p hp with h | h
      · rw [h]; exact hitems
      · exact hvs p h
    · intro p hp
      rcases objSet_mem t newCategory _ p hp with h | h
      · rw [h]; exact jsOr_personal_truthy skillType
      · exact hvt p h
    · exact objSet_keys_congr s t newCategory _ _ hk

/-- `removeSkillCategory` preserves the skills invariant: the two
presence guards fire together. -/
theorem removeSkillCategory_WF (store : Option CvDoc) (now category : String)
    (h : SkillsWF (loadOrDefault store)) :
    SkillsWF (removeSkillCategory store now category) := by
  obtain ⟨s, t, hs, ht, hvs, hvt, hk⟩ := h
  have hcond : (truthy (objGet s category) = true) ↔
      (truthy (objGet t category) = true) := by
    rw [objGet_truthy_iff s category hvs, objGet_truthy_iff t category hvt, hk]
  apply saveCvData_skillsWF
  have hts : truthy (JsVal.obj s) = true := rfl
  have htt : truthy (JsVal.obj t) = true := rfl
  by_cases hc : truthy (objGet s category) = true
  · have hct : truthy (objGet t category) = true := hcond.mp hc
    refine ⟨objDelete s category, objDelete t category, ?_, ?_, ?_, ?_, ?_⟩
    · simp [removeSkillCategory, hs, ht, hts, htt, jsDeleteProp, jsIndex, hc, hct]
    · simp [removeSkillCategory, hs, ht, hts, htt, jsDeleteProp, jsIndex, hc, hct]
    · exact fun p hp => hvs p (objDelete_mem s category p hp)
    · exact fun p hp => hvt p (objDelete_mem t category p hp)
    · exact objDelete_keys_congr s t category hk
  · have hct : ¬ truthy (objGet t category) = true := fun hx => hc (hcond.mpr hx)
    refine ⟨s, t, ?_, ?_, hvs, hvt, hk⟩
    · simp [removeSkillCategory, hs, ht, hts, htt, jsDeleteProp, jsIndex, hc, hct]
    · simp [removeSkillCategory, hs, ht, hts, htt, jsDeleteProp, jsIndex, hc, hct]

/-- One skill-category call preserves the invariant. -/
theorem runSkillOp_WF (store : Option CvDoc) (op : SkillOp)
    (h : SkillsWF (loadOrDefault store)) : SkillsWF (runSkillOp store op) := by
  cases op with
  | add now c items t => exact addSkillCategory_WF store now c (.arr items) t rfl h
  | edit now o n items t => exact editSkillCategory_WF store now o n (.arr items) t rfl h
  | remove now c => exact removeSkillCategory_WF store now c h

/-- Any sequence of skill-category calls preserves the invariant of the
(loaded-or-default) stored document. -/
theorem runSkillOps_WF :
    ∀ (ops : List SkillOp) (store : Option CvDoc),
      SkillsWF (loadOrDefault store) →
      SkillsWF (loadOrDefault (runSkillOps ops store))
  | [], _, h => h
  | op :: ops, store, h =>
      runSkillOps_WF ops (some (runSkillOp store op)) (runSkillOp_WF store op h)

/-- C8: starting from the default empty profile document, after any finite
sequence of `addSkillCategory` / `editSkillCategory` /
`removeSkillCategory` calls (each with a list-valued `items` argument),
the key list of `skills` equals the key list of `skillTypes` in the
resulting stored document — so in particular the key sets are equal. -/
theorem skillKeys_invariant_C8 (ops : List SkillOp) :
    objKeys (loadOrDefault (runSkillOps ops none)).skills =
      objKeys (loadOrDefault (runSkillOps ops none)).skillTypes := by
  obtain ⟨s, t, hs, ht, _, _, hk⟩ := runSkillOps_WF ops none skillsWF_default
  rw [hs, ht]
  exact hk

/-! ## C4 -/

/-- Character-level version of `join(",")`. -/
def charJoin : List (List Char) → List Char
  | [] => []
  | [a] => a
  | a :: rest => a ++ ',' :: charJoin rest

theorem charJoin_cons_eq (a : List Char) (L : List (List Char)) :
    charJoin (a :: L) = a ++ (if L = [] then [] else ',' :: charJoin L) := by
  cases L with
  | nil => simp [charJoin]
  | cons b L => rfl

/-- A comma-free chunk followed by a comma-or-nothing tail determines both
parts of the concatenation. -/
theorem append_comma_inj :
    ∀ (a b s1 s2 : List Char),
      ',' ∉ a → ',' ∉ b →
      (s1 = [] ∨ ∃ u, s1 = ',' :: u) → (s2 = [] ∨ ∃ u, s2 = ',' :: u) →
      a ++ s1 = b ++ s2 → a = b ∧ s1 = s2
  | [], [], s1, s2, _, _, _, _, h => ⟨rfl, h⟩
  | [], c :: b, s1, s2, _, hb, hs1, _, h => by
      rcases hs1 with rfl | ⟨u, rfl⟩
      · simp at h
      · simp only [List.nil_append, List.cons_append, List.cons.injEq] at h
        exact absurd (h.1 ▸ List.mem_cons_self c b) hb
  | c :: a, [], s1, s2, ha, _, _, hs2, h => by
      rcases hs2 with rfl | ⟨u, rfl⟩
      · simp at h
      · simp only [List.cons_append, List.nil_append, List.cons.injEq] at h
        exact absurd (h.1 ▸ List.mem_cons_self c a) ha
  | c :: a, d :: b, s1, s2, ha, hb, hs1, hs2, h => by
      simp only [List.cons_append, List.cons.injEq] at h
      obtain ⟨hcd, hrest⟩ := h
      obtain ⟨he, hs⟩ := append_comma_inj a b s1 s2
        (fun hx => ha (List.mem_cons_of_mem _ hx))
        (fun hx => hb (List.mem_cons_of_mem _ hx)) hs1 hs2 hrest
      exact ⟨by rw [hcd, he], hs⟩

/-- `charJoin` is injective on lists of non-empty comma-free chunks. -/
theorem charJoin_inj :
    ∀ L1 L2 : List (List Char),
      (∀ l ∈ L1, l ≠ [] ∧ ',' ∉ l) → (∀ l ∈ L2, l ≠ [] ∧ ',' ∉ l) →
      charJoin L1 = charJoin L2 → L1 = L2
  | [], [], _, _, _ => rfl
  | [], b :: L2, _, h2, h => by
      rw [charJoin_cons_eq] at h
      rcases List.append_eq_nil.mp h.symm with ⟨hb, _⟩
      exact absurd hb (h2 b (List.mem_cons_self _ _)).1
  | a :: L1, [], h1, _, h => by
      rw [charJoin_cons_eq] at h
      rcases List.append_eq_nil.mp h with ⟨ha, _⟩
      exact absurd ha (h1 a (List.mem_cons_self _ _)).1
  | a :: L1, b :: L2, h1, h2, h => by
      rw [charJoin_cons_eq, charJoin_cons_eq] at h
      have htail1 : (if L1 = [] then ([] : List Char) else ',' :: charJoin L1) = [] ∨
          ∃ u, (if L1 = [] then ([] : List Char) else ',' :: charJoin L1) = ',' :: u := by
        by_cases hL : L1 = [] <;> simp [hL]
      have htail2 : (if L2 = [] then ([] : List Char) else ',' :: charJoin L2) = [] ∨
          ∃ u, (if L2 = [] then ([] : List Char) else ',' :: charJoin L2) = ',' :: u := by
        by_cases hL : L2 = [] <;> simp [hL]
      obtain ⟨hab, htails⟩ := append_comma_inj a b _ _
        (h1 a (List.mem_cons_self _ _)).2 (h2 b (List.mem_cons_self _ _)).2
        htail1 htail2 h
      cases L1 with
      | nil =>
          cases L2 with
          | nil => rw [hab]
          | cons c L2 => simp at htails
      | cons c L1 =>
          cases L2 with
          | nil => simp at htails
          | cons d L2 =>
              simp only [if_neg (List.cons_ne_nil _ _), List.cons.injEq, true_and] at htails
              rw [hab, charJoin_inj (c :: L1) (d :: L2)
                (fun l hl => h1 l (List.mem_cons_of_mem _ hl))
                (fun l hl => h2 l (List.mem_cons_of_mem _ hl)) htails]

theorem joinStr_data :
    ∀ l : List String, (joinStr l).data = charJoin (l.map String.data)
  | [] => rfl
  | [s] => rfl
  | s :: r :: rest => by
      show (s ++ "," ++ joinStr (r :: rest)).data = _
      rw [String.data_append, String.data_append]
      have hj := joinStr_data (r :: rest)
      simp only [List.map_cons, charJoin_cons_eq (s.data)]
      rw [← List.map_cons, hj]
      simp [charJoin_cons_eq]

/-- `join(",")` is injective on lists of non-empty comma-free strings. -/
theorem joinStr_inj (l1 l2 : List String)
    (h1 : ∀ s ∈ l1, s ≠ "" ∧ ',' ∉ s.data) (h2 : ∀ s ∈ l2, s ≠ "" ∧ ',' ∉ s.data)
    (h : joinStr l1 = joinStr l2) : l1 = l2 := by
  have hdata : charJoin (l1.map String.data) = charJoin (l2.map String.data) := by
    rw [← joinStr_data, ← joinStr_data, h]
  have hchunks : ∀ (l : List String), (∀ s ∈ l, s ≠ "" ∧ ',' ∉ s.data) →
      ∀ c ∈ l.map String.data, c ≠ [] ∧ ',' ∉ c := by
    intro l hl c hc
    rcases List.mem_map.mp hc with ⟨s, hs, rfl⟩
    exact ⟨fun hnil => (hl s hs).1 (String.ext hnil), (hl s hs).2⟩
  have hmap := charJoin_inj _ _ (hchunks l1 h1) (hchunks l2 h2) hdata
  exact List.map_injective_iff.mpr (fun a b hab => String.ext hab) hmap

/-- The types of a section-entry list are non-empty and comma-free.  Under
this condition the comma-joined fingerprint determines the type
sequence. -/
def entryTypesOk (es : List SectionEntry) : Prop :=
  ∀ e ∈ es, e.type ≠ "" ∧ ',' ∉ e.type.data

theorem joinTypes_eq_iff (as bs : List SectionEntry)
    (ha : entryTypesOk as) (hb : entryTypesOk bs) :
    joinTypes as = joinTypes bs ↔ as.map (·.type) = bs.map (·.type) := by
  constructor
  · intro h
    apply joinStr_inj _ _ ?_ ?_ h
    · intro s hs
      rcases List.mem_map.mp hs with ⟨e, he, rfl⟩
      exact ha e he
    · intro s hs
      rcases List.mem_map.mp hs with ⟨e, he, rfl⟩
      exact hb e he
  · intro h
    unfold joinTypes
    rw [h]

/-- C4 amended: `detectActivePreset` compares comma-JOINED type strings,
not type sequences.  Provided every involved `type` value is non-empty and
comma-free — true of the shipped catalog, but not enforced on configs —
the joined comparison coincides with exact sequence equality, and the
matcher returns the first preset in catalog order whose layout and whose
section and sidebar type sequences are exactly equal, `null` iff none
matches; per-entry config payloads never affect the result (only `type`
projections are inspected). -/
theorem detectActivePreset_C4_amended :
    ∀ (config : BuilderConfig) (presets : List Preset),
      entryTypesOk (config.sections.getD []) →
      entryTypesOk (config.sidebar.getD []) →
      (∀ p ∈ presets, entryTypesOk p.sections ∧ entryTypesOk p.sidebar) →
      detectActivePreset config presets = detectActivePresetSpec config presets
  | _, [], _, _, _ => rfl
  | config, p :: rest, hs, hsb, hp => by
      have hrest := detectActivePreset_C4_amended config rest hs hsb
        (fun q hq => hp q (List.mem_cons_of_mem _ hq))
      by_cases h1 : config.layout = p.layout
      · by_cases h2 : joinTypes (config.sections.getD []) = joinTypes p.sections
        · by_cases h3 : joinTypes (config.sidebar.getD []) = joinTypes p.sidebar
          · have hm : presetMatchesSpec config p = true := by
              simp only [presetMatchesSpec, Bool.and_eq_true, beq_iff_eq]
              exact ⟨⟨h1,
                (joinTypes_eq_iff _ _ hs (hp p (List.mem_cons_self _ _)).1).mp h2⟩,
                (joinTypes_eq_iff _ _ hsb (hp p (List.mem_cons_self _ _)).2).mp h3⟩
            calc detectActivePreset config (p :: rest) = some p.id := by
                  simp [detectActivePreset, h1, h2, h3]
              _ = detectActivePresetSpec config (p :: rest) := by
                  simp [detectActivePresetSpec, List.find?_cons_of_pos _ hm]
          · have hnm : ¬ presetMatchesSpec config p = true := by
              intro hm
              simp only [presetMatchesSpec, Bool.and_eq_true, beq_iff_eq] at hm
              exact h3
                ((joinTypes_eq_iff _ _ hsb (hp p (List.mem_cons_self _ _)).2).mpr hm.2)
            calc detectActivePreset config (p :: rest)
                = detectActivePreset config rest := by
                  simp [detectActivePreset, h1, h2, h3]
              _ = detectActivePresetSpec config rest := hrest
              _ = detectActivePresetSpec config (p :: rest) := by
                  simp [detectActivePresetSpec, List.find?_cons_of_neg _ hnm]
        · have hnm : ¬ presetMatchesSpec config p = true := by
            intro hm
            simp only [presetMatchesSpec, Bool.and_eq_true, beq_iff_eq] at hm
            exact h2
              ((joinTypes_eq_iff _ _ hs (hp p (List.mem_cons_self _ _)).1).mpr hm.1.2)
          calc detectActivePreset config (p :: rest)
              = detectActivePreset config rest := by
                simp [detectActivePreset, h1, h2]
            _ = detectActivePresetSpec config rest := hrest
            _ = detectActivePresetSpec config (p :: rest) := by
                simp [detectActivePresetSpec, List.find?_cons_of_neg _ hnm]
      · have hnm : ¬ presetMatchesSpec config p = true := by
          intro hm
          simp only [presetMatchesSpec, Bool.and_eq_true, beq_iff_eq] at hm
          exact h1 hm.1.1
        calc detectActivePreset config (p :: rest)
            = detectActivePreset config rest := by
              simp [detectActivePreset, h1]
          _ = detectActivePresetSpec config rest := hrest
          _ = detectActivePresetSpec config (p :: rest) := by
              simp [detectActivePresetSpec, List.find?_cons_of_neg _ hnm]

/-- C4 counterexample: `detectActivePreset` does NOT implement exact
type-sequence matching.  A config with ONE section whose `type` is the
comma-join of professional-cv's six types produces the same joined
fingerprint, so the matcher reports `"professional-cv"` although the type
sequences differ (length 1 vs 6) and no preset matches by exact sequence
comparison. -/
theorem detectActivePreset_C4_counterexample :
    detectActivePreset
        { layout := "single-column"
          sections := some
            [{ type := "cv-experience-work,cv-skills-work,cv-projects-work,cv-education-work,cv-languages,cv-interests-work"
               config := .obj [] }]
          sidebar := some [] } getCvPresets = some "professional-cv" ∧
    detectActivePresetSpec
        { layout := "single-column"
          sections := some
            [{ type := "cv-experience-work,cv-skills-work,cv-projects-work,cv-education-work,cv-languages,cv-interests-work"
               config := .obj [] }]
          sidebar := some [] } getCvPresets = none := by
  decide

/-- Witness for the C4 amended theorem: a well-formed config (comma-free,
non-empty types) on the shipped catalog, where the matcher and the
exact-sequence specification agree. -/
theorem detectActivePreset_C4_witness :
    detectActivePreset
        { layout := "single-column"
          sections := some
            [ { type := "cv-experience-work", config := .obj [("maxItems", .num 3)] }
              , { type := "cv-skills-work", config := .obj [] }
              , { type := "cv-projects-work", config := .obj [] }
              , { type := "cv-education-work", config := .obj [] }
              , { type := "cv-languages", config := .obj [] }
              , { type := "cv-interests-work", config := .obj [] } ]
          sidebar := some [] } getCvPresets =
      detectActivePresetSpec
        { layout := "single-column"
          sections := some
            [ { type := "cv-experience-work", config := .obj [("maxItems", .num 3)] }
              , { type := "cv-skills-work", config := .obj [] }
              , { type := "cv-projects-work", config := .obj [] }
              , { type := "cv-education-work", config := .obj [] }
              , { type := "cv-languages", config := .obj [] }
              , { type := "cv-interests-work", config := .obj [] } ]
          sidebar := some [] } getCvPresets := by
  exact detectActivePreset_C4_amended _ getCvPresets
    (by unfold entryTypesOk; decide) (by unfold entryTypesOk; decide)
    (by unfold entryTypesOk; decide)
